import Mathlib

/-!
Verification of the Hybird-RAG-Agent retrieval pipeline.

The definitions below are a shallow embedding of `src/tools.py` (the search
tools `semantic_search`, `text_search`, `reciprocal_rank_fusion`,
`hybrid_search`) together with a model of the ingestion pipeline described in
the project spec.  Python floats are modelled as rationals, Python `dict`
(which preserves insertion order) as association lists, exceptions as
`Except`, and the external world (embedding provider, PostgreSQL store,
`json.loads`) as an explicit environment record.
-/

namespace HybridRag

/-- Embedding of the `SearchResult` pydantic model of `src/tools.py`.
Chunk metadata is an opaque key/value map (the search code never inspects
individual values, it only carries them through). -/
structure SearchResult where
  chunk_id : String
  document_id : String
  content : String
  similarity : ℚ
  metadata : List (String × String)
  document_title : String
  document_source : String
deriving Repr, DecidableEq

/-- The raw value of the `metadata` column as seen by the row-mapping loop:
a JSON string still to be parsed, an already-structured map, or SQL NULL. -/
inductive MetaVal where
  | str : String → MetaVal
  | obj : List (String × String) → MetaVal
  | null : MetaVal
deriving Repr, DecidableEq

/-- One row of the SQL join issued by the two search channels
(`chunks c JOIN documents d`): chunk columns plus the parent document's
`filename` and nullable `metadata->>'title'`. -/
structure Row where
  chunk_id : String
  document_id : String
  content : String
  similarity : ℚ
  chunk_metadata : MetaVal
  document_source : String
  document_title : Option String
deriving Repr, DecidableEq

/-- A Python exception value (only its presence matters to the control flow). -/
structure Err where
  msg : String
deriving Repr, DecidableEq

/-- The two search-related settings read by the tools
(`settings.py`: `default_match_count`, `max_match_count`). -/
structure Settings where
  default_match_count : Nat
  max_match_count : Nat
deriving Repr, DecidableEq

/-- The environment a search call runs in: the dependency object plus the
external collaborators.  `semanticRows q` / `textRows q` are the full ranked
candidate lists the store would stream for a query; the SQL `LIMIT n` is
`List.take n` of that stream.  Each fallible external step carries its
possible failure (`Except` / an `Option Err` fault flag), mirroring the
Python exceptions the `try/except` blocks guard against. -/
structure Env where
  settings : Settings
  embedOutcome : String → Except Err (List ℚ)
  jsonParse : String → Except Err (List (String × String))
  semanticRows : List ℚ → List Row
  textRows : String → List Row
  semanticFetchFault : Option Err
  textFetchFault : Option Err
  fusionFault : Option Err

/-- Python `row['document_title'] or row['document_source']`: `or` takes the
second operand when the first is falsy (`None` or the empty string). -/
def pyTitle (t : Option String) (s : String) : String :=
  match t with
  | none => s
  | some v => if v = "" then s else v

/-- The metadata normalisation at the top of the row loop: a string is passed
to `json.loads` (which may raise), `None` becomes `{}`, a structured map is
kept as is. -/
def parseMeta (jp : String → Except Err (List (String × String)))
    (m : MetaVal) : Except Err (List (String × String)) :=
  match m with
  | .str s => jp s
  | .obj l => Except.ok l
  | .null => Except.ok []

/-- Construction of one `SearchResult` from one fetched row, shared verbatim
by `semantic_search` and `text_search`. -/
def rowToResult (jp : String → Except Err (List (String × String)))
    (row : Row) : Except Err SearchResult :=
  match parseMeta jp row.chunk_metadata with
  | Except.error e => Except.error e
  | Except.ok md =>
      Except.ok
        { chunk_id := row.chunk_id
          document_id := row.document_id
          content := row.content
          similarity := row.similarity
          metadata := md
          document_title := pyTitle row.document_title row.document_source
          document_source := row.document_source }

/-- The `for row in rows` loop: the first failure aborts the whole call
(the partial list built so far is discarded by the exception). -/
def mapRows (jp : String → Except Err (List (String × String))) :
    List Row → Except Err (List SearchResult)
  | [] => Except.ok []
  | r :: rs =>
    match rowToResult jp r with
    | Except.error e => Except.error e
    | Except.ok s =>
      match mapRows jp rs with
      | Except.error e => Except.error e
      | Except.ok ss => Except.ok (s :: ss)

/-- `match_count` resolution common to all three tools: default when absent,
then `min(match_count, settings.max_match_count)`. -/
def clampCount (env : Env) (matchCount : Option Nat) : Nat :=
  min (matchCount.getD env.settings.default_match_count)
    env.settings.max_match_count

/-- The `try` block of `semantic_search`: resolve the count, embed the query,
fetch `LIMIT match_count` rows ordered by vector distance, map each row. -/
def semanticBody (env : Env) (query : String) (matchCount : Option Nat) :
    Except Err (List SearchResult) :=
  let mc := clampCount env matchCount
  match env.embedOutcome query with
  | Except.error e => Except.error e
  | Except.ok emb =>
    match env.semanticFetchFault with
    | some e => Except.error e
    | none => mapRows env.jsonParse ((env.semanticRows emb).take mc)

/-- `semantic_search` of `src/tools.py`: the whole body is wrapped in
`try/except Exception: return []`. -/
def semantic_search (env : Env) (query : String) (matchCount : Option Nat) :
    List SearchResult :=
  match semanticBody env query matchCount with
  | Except.ok r => r
  | Except.error _ => []

/-- The `try` block of `text_search`: resolve the count, fetch
`LIMIT match_count * 2` rows ordered by lexical rank, map each row.
Note the doubled limit, and that no query embedding is requested. -/
def textBody (env : Env) (query : String) (matchCount : Option Nat) :
    Except Err (List SearchResult) :=
  let mc := clampCount env matchCount
  match env.textFetchFault with
  | some e => Except.error e
  | none => mapRows env.jsonParse ((env.textRows query).take (mc * 2))

/-- `text_search` of `src/tools.py`, with its `try/except Exception: return []`. -/
def text_search (env : Env) (query : String) (matchCount : Option Nat) :
    List SearchResult :=
  match textBody env query matchCount with
  | Except.ok r => r
  | Except.error _ => []

/-- One iteration of the RRF accumulation: `rrf_scores[chunk_id] += s` when
the id is already a key (the stored `SearchResult` is kept — `chunk_map` is
only written on first sight), otherwise both dicts gain the id at the end
(Python dicts preserve insertion order).  The two dicts of the source always
share their key set, so they are fused into one association list. -/
def addEntry (acc : List (String × ℚ × SearchResult)) (cid : String)
    (s : ℚ) (r : SearchResult) : List (String × ℚ × SearchResult) :=
  match acc with
  | [] => [(cid, s, r)]
  | e :: rest =>
    if e.1 = cid then (e.1, e.2.1 + s, e.2.2) :: rest
    else e :: addEntry rest cid s r

/-- `for rank, result in enumerate(results)` at starting rank `i`, adding
`1.0 / (k + rank)` for each result. -/
def scoreList (k : ℚ) (i : Nat) (l : List SearchResult)
    (acc : List (String × ℚ × SearchResult)) :
    List (String × ℚ × SearchResult) :=
  match l with
  | [] => acc
  | r :: rs => scoreList k (i + 1) rs (addEntry acc r.chunk_id (1 / (k + i)) r)

/-- `for results in search_results_list`: fold every ranked list into the
score table. -/
def buildTable (k : ℚ) (lists : List (List SearchResult))
    (acc : List (String × ℚ × SearchResult)) :
    List (String × ℚ × SearchResult) :=
  match lists with
  | [] => acc
  | l :: ls => buildTable k ls (scoreList k 0 l acc)

/-- `reciprocal_rank_fusion` of `src/tools.py`: accumulate RRF scores,
`sorted(items, key=score, reverse=True)` (a stable sort by descending
score — modelled by the stable `insertionSort` with the reversed
comparison), then rebuild each first-seen `SearchResult` with the fused
score as its similarity. -/
def reciprocal_rank_fusion (lists : List (List SearchResult))
    (k : Nat := 60) : List SearchResult :=
  let table := buildTable (k : ℚ) lists []
  let sortedChunks := table.insertionSort (fun x y => y.2.1 ≤ x.2.1)
  sortedChunks.map (fun e => { e.2.2 with similarity := e.2.1 })

/-- The `try` block of `hybrid_search`: clamp the count, request
`match_count * 2` from both channels (gathered concurrently; each channel
already degrades to `[]` on its own), return `[]` if both are empty,
otherwise fuse with `k=60` and keep the top `match_count`.  The fusion step
may itself raise (the defensive outer `except`), modelled by the
environment's `fusionFault`. -/
def hybridBody (env : Env) (query : String) (matchCount : Option Nat) :
    Except Err (List SearchResult) :=
  if semantic_search env query (some (clampCount env matchCount * 2)) = []
      ∧ text_search env query (some (clampCount env matchCount * 2)) = [] then
    Except.ok []
  else
    match env.fusionFault with
    | some e => Except.error e
    | none =>
      Except.ok ((reciprocal_rank_fusion
        [semantic_search env query (some (clampCount env matchCount * 2)),
         text_search env query (some (clampCount env matchCount * 2))]
        60).take (clampCount env matchCount))

/-- `hybrid_search` of `src/tools.py`: on any exception from the body, fall
back to `semantic_search(ctx, query, match_count)` with the already-clamped
count (the inner bare `except: return []` is subsumed: `semantic_search`
never raises, and returns `[]` itself whenever its body fails). -/
def hybrid_search (env : Env) (query : String) (matchCount : Option Nat) :
    List SearchResult :=
  match hybridBody env query matchCount with
  | Except.ok r => r
  | Except.error _ => semantic_search env query (some (clampCount env matchCount))

/-! ## Ingestion pipeline (modelled from the spec)

The ingestion module `src/ingestion/ingest.py` (class
`DocumentIngestionPipeline`) is referenced by the repository's tests but its
source is not part of the tree, so it is modelled from the spec. -/

/-- A `documents` table row. -/
structure DocRow where
  id : Nat
  title : String
  filename : String
  content : String
deriving Repr, DecidableEq

/-- A `chunks` table row. -/
structure ChunkRow where
  document_id : Nat
  index : Nat
  content : String
  embedding : List ℚ
deriving Repr, DecidableEq

/-- The relational store: a `documents` table and a `chunks` table. -/
structure Store where
  documents : List DocRow
  chunks : List ChunkRow
deriving Repr, DecidableEq

/-- Embed every chunk text; the first provider failure fails the whole batch
(spec §4.2: partial embedding is not committed). -/
def embedAll (embed : String → Except Err (List ℚ)) :
    List String → Except Err (List (List ℚ))
  | [] => Except.ok []
  | p :: ps =>
    match embed p with
    | Except.error e => Except.error e
    | Except.ok v =>
      match embedAll embed ps with
      | Except.error e => Except.error e
      | Except.ok vs => Except.ok (v :: vs)

/-- The chunk rows persisted for one document: chunk texts zipped with their
embeddings, indexed from 0. -/
def chunkRowsFor (docId : Nat) (pieces : List String)
    (embs : List (List ℚ)) : List ChunkRow :=
  (pieces.zip embs).enum.map (fun p => ⟨docId, p.1, p.2.1, p.2.2⟩)

/-- Modelled from the spec: `ingest(title, source, content, metadata)` of the
missing `src/ingestion/ingest.py` — chunk the content, batch-embed all
chunks (any embedding failure fails the whole ingestion), then persist the
document row and all its chunk rows in one atomic unit.  The returned
`Store` is the state visible to readers afterwards: on failure the
transaction commits nothing, so the input store is returned unchanged
together with the error. -/
def ingest (chunker : String → List String)
    (embed : String → Except Err (List ℚ)) (store : Store) (nextId : Nat)
    (title source content : String) : Store × Except Err Nat :=
  match embedAll embed (chunker content) with
  | Except.error e => (store, Except.error e)
  | Except.ok embs =>
    ({ documents := store.documents ++ [⟨nextId, title, source, content⟩]
       chunks := store.chunks ++ chunkRowsFor nextId (chunker content) embs },
     Except.ok nextId)

/-- `SELECT COUNT(*) FROM documents WHERE id = docId`. -/
def docCount (s : Store) (docId : Nat) : Nat :=
  (s.documents.filter (fun d => decide (d.id = docId))).length

/-- `SELECT COUNT(*) FROM chunks WHERE document_id = docId`. -/
def chunkCount (s : Store) (docId : Nat) : Nat :=
  (s.chunks.filter (fun c => decide (c.document_id = docId))).length

/-! ## Spec-side characterisations used to state the claims -/

/-- The spec's RRF formula (§4.5), written from its words: a chunk's fused
score is the sum, over every input list in which it appears, of
`1 / (k_rrf + rank)` where `rank` is its zero-based position in that list. -/
def specFusedScore (kR : ℚ) (lists : List (List SearchResult))
    (cid : String) : ℚ :=
  (lists.map (fun l =>
    let ids := l.map SearchResult.chunk_id
    if cid ∈ ids then 1 / (kR + ids.indexOf cid) else 0)).sum

/-- Score read off the association-list table (first matching key). -/
def tblScore : List (String × ℚ × SearchResult) → String → ℚ
  | [], _ => 0
  | e :: rest, c => if e.1 = c then e.2.1 else tblScore rest c

/-- Stored representative read off the table (first matching key). -/
def tblRes : List (String × ℚ × SearchResult) → String → Option SearchResult
  | [], _ => none
  | e :: rest, c => if e.1 = c then some e.2.2 else tblRes rest c

/-- The keys of the score table, in insertion order. -/
def tblKeys (t : List (String × ℚ × SearchResult)) : List String :=
  t.map (fun e => e.1)

/-- Total contribution of chunk `c` from one list scanned at starting rank
`i`: each occurrence at rank `j` contributes `1 / (k + j)`. -/
def contrib (k : ℚ) (i : Nat) (l : List SearchResult) (c : String) : ℚ :=
  match l with
  | [] => 0
  | r :: rs => (if r.chunk_id = c then 1 / (k + i) else 0) + contrib k (i + 1) rs c

/-- Total contribution of chunk `c` across all input lists. -/
def listsContrib (k : ℚ) (lists : List (List SearchResult)) (c : String) : ℚ :=
  match lists with
  | [] => 0
  | l :: ls => contrib k 0 l c + listsContrib k ls c

/-- The first `SearchResult` with chunk id `c` in iteration order
(earliest list first, then earliest rank). -/
def findFirst (lists : List (List SearchResult)) (c : String) :
    Option SearchResult :=
  match lists with
  | [] => none
  | l :: ls =>
    match l.find? (fun r => decide (r.chunk_id = c)) with
    | some r => some r
    | none => findFirst ls c

/-! ## Lemmas about the RRF score table -/

theorem tblScore_addEntry_self (acc : List (String × ℚ × SearchResult))
    (c : String) (s : ℚ) (r : SearchResult) :
    tblScore (addEntry acc c s r) c = tblScore acc c + s := by
  induction acc with
  | nil => simp [addEntry, tblScore]
  | cons e rest ih =>
    by_cases h : e.1 = c
    · simp [addEntry, h, tblScore]
    · simp [addEntry, h, tblScore, ih]

theorem tblScore_addEntry_ne (acc : List (String × ℚ × SearchResult))
    {c c' : String} (s : ℚ) (r : SearchResult) (h : c' ≠ c) :
    tblScore (addEntry acc c s r) c' = tblScore acc c' := by
  induction acc with
  | nil => simp [addEntry, tblScore, h.symm]
  | cons e rest ih =>
    by_cases he : e.1 = c
    · simp [addEntry, he, tblScore, h.symm]
    · by_cases he' : e.1 = c'
      · simp [addEntry, he, tblScore, he', h]
      · simp [addEntry, he, tblScore, he', ih]

theorem mem_tblKeys_addEntry (acc : List (String × ℚ × SearchResult))
    (c c' : String) (s : ℚ) (r : SearchResult) :
    c' ∈ tblKeys (addEntry acc c s r) ↔ c' ∈ tblKeys acc ∨ c' = c := by
  induction acc with
  | nil => simp [addEntry, tblKeys]
  | cons e rest ih =>
    by_cases h : e.1 = c
    · simp only [addEntry, if_pos h, tblKeys, List.map_cons, List.mem_cons]
      rw [h]
      tauto
    · simp only [addEntry, if_neg h, tblKeys, List.map_cons, List.mem_cons]
      rw [show (addEntry rest c s r).map (fun e => e.1) =
        tblKeys (addEntry rest c s r) from rfl]
      rw [ih]
      tauto

theorem nodup_tblKeys_addEntry (acc : List (String × ℚ × SearchResult))
    (c : String) (s : ℚ) (r : SearchResult)
    (h : (tblKeys acc).Nodup) : (tblKeys (addEntry acc c s r)).Nodup := by
  induction acc with
  | nil => simp [addEntry, tblKeys]
  | cons e rest ih =>
    simp only [tblKeys, List.map_cons, List.nodup_cons] at h
    by_cases he : e.1 = c
    · simp only [addEntry, if_pos he, tblKeys, List.map_cons, List.nodup_cons]
      exact ⟨h.1, h.2⟩
    · simp only [addEntry, if_neg he, tblKeys, List.map_cons, List.nodup_cons]
      refine ⟨?_, ih h.2⟩
      rw [show (addEntry rest c s r).map (fun e => e.1) =
        tblKeys (addEntry rest c s r) from rfl]
      rw [mem_tblKeys_addEntry]
      rintro (hh | hh)
      · exact h.1 hh
      · exact he hh

theorem tblRes_addEntry_self (acc : List (String × ℚ × SearchResult))
    (c : String) (s : ℚ) (r : SearchResult) :
    tblRes (addEntry acc c s r) c = some ((tblRes acc c).getD r) := by
  induction acc with
  | nil => simp [addEntry, tblRes]
  | cons e rest ih =>
    by_cases h : e.1 = c
    · simp [addEntry, h, tblRes]
    · simp [addEntry, h, tblRes, ih]

theorem tblRes_addEntry_ne (acc : List (String × ℚ × SearchResult))
    {c c' : String} (s : ℚ) (r : SearchResult) (h : c' ≠ c) :
    tblRes (addEntry acc c s r) c' = tblRes acc c' := by
  induction acc with
  | nil => simp [addEntry, tblRes, h.symm]
  | cons e rest ih =>
    by_cases he : e.1 = c
    · simp [addEntry, he, tblRes, h.symm]
    · by_cases he' : e.1 = c'
      · simp [addEntry, he, tblRes, he', h]
      · simp [addEntry, he, tblRes, he', ih]

theorem tblScore_scoreList (k : ℚ) (i : Nat) (l : List SearchResult)
    (acc : List (String × ℚ × SearchResult)) (c : String) :
    tblScore (scoreList k i l acc) c = tblScore acc c + contrib k i l c := by
  induction l generalizing i acc with
  | nil => simp [scoreList, contrib]
  | cons r rs ih =>
    simp only [scoreList, contrib]
    rw [ih]
    by_cases h : r.chunk_id = c
    · rw [h, tblScore_addEntry_self]
      simp [h]
      ring
    · rw [tblScore_addEntry_ne _ _ _ (fun hh => h hh.symm)]
      simp [h]

theorem mem_tblKeys_scoreList (k : ℚ) (i : Nat) (l : List SearchResult)
    (acc : List (String × ℚ × SearchResult)) (c : String) :
    c ∈ tblKeys (scoreList k i l acc) ↔
      c ∈ tblKeys acc ∨ c ∈ l.map SearchResult.chunk_id := by
  induction l generalizing i acc with
  | nil => simp [scoreList]
  | cons r rs ih =>
    simp only [scoreList, List.map_cons, List.mem_cons]
    rw [ih, mem_tblKeys_addEntry]
    tauto

theorem nodup_tblKeys_scoreList (k : ℚ) (i : Nat) (l : List SearchResult)
    (acc : List (String × ℚ × SearchResult))
    (h : (tblKeys acc).Nodup) : (tblKeys (scoreList k i l acc)).Nodup := by
  induction l generalizing i acc with
  | nil => simpa [scoreList] using h
  | cons r rs ih =>
    simp only [scoreList]
    exact ih _ _ (nodup_tblKeys_addEntry _ _ _ _ h)

theorem tblRes_scoreList (k : ℚ) (i : Nat) (l : List SearchResult)
    (acc : List (String × ℚ × SearchResult)) (c : String) :
    tblRes (scoreList k i l acc) c =
      match tblRes acc c with
      | some r => some r
      | none => l.find? (fun r => decide (r.chunk_id = c)) := by
  induction l generalizing i acc with
  | nil =>
    simp only [scoreList, List.find?_nil]
    cases tblRes acc c <;> rfl
  | cons r rs ih =>
    simp only [scoreList]
    rw [ih]
    by_cases h : r.chunk_id = c
    · rw [h, tblRes_addEntry_self]
      simp only [List.find?_cons, h]
      cases hr : tblRes acc c <;> simp [hr]
    · rw [tblRes_addEntry_ne _ _ _ (fun hh => h hh.symm)]
      simp only [List.find?_cons]
      cases hr : tblRes acc c <;> simp [hr, h]

theorem tblScore_buildTable (k : ℚ) (lists : List (List SearchResult))
    (acc : List (String × ℚ × SearchResult)) (c : String) :
    tblScore (buildTable k lists acc) c =
      tblScore acc c + listsContrib k lists c := by
  induction lists generalizing acc with
  | nil => simp [buildTable, listsContrib]
  | cons l ls ih =>
    simp only [buildTable, listsContrib]
    rw [ih, tblScore_scoreList]
    ring

theorem mem_tblKeys_buildTable (k : ℚ) (lists : List (List SearchResult))
    (acc : List (String × ℚ × SearchResult)) (c : String) :
    c ∈ tblKeys (buildTable k lists acc) ↔
      c ∈ tblKeys acc ∨ ∃ l ∈ lists, c ∈ l.map SearchResult.chunk_id := by
  induction lists generalizing acc with
  | nil => simp [buildTable]
  | cons l ls ih =>
    simp only [buildTable, List.mem_cons]
    rw [ih, mem_tblKeys_scoreList]
    constructor
    · rintro ((h | h) | ⟨l', hl', h⟩)
      · exact Or.inl h
      · exact Or.inr ⟨l, Or.inl rfl, h⟩
      · exact Or.inr ⟨l', Or.inr hl', h⟩
    · rintro (h | ⟨l', hl' | hl', h⟩)
      · exact Or.inl (Or.inl h)
      · exact Or.inl (Or.inr (hl' ▸ h))
      · exact Or.inr ⟨l', hl', h⟩

theorem nodup_tblKeys_buildTable (k : ℚ) (lists : List (List SearchResult))
    (acc : List (String × ℚ × SearchResult))
    (h : (tblKeys acc).Nodup) : (tblKeys (buildTable k lists acc)).Nodup := by
  induction lists generalizing acc with
  | nil => simpa [buildTable] using h
  | cons l ls ih =>
    simp only [buildTable]
    exact ih _ (nodup_tblKeys_scoreList _ _ _ _ h)

theorem tblRes_buildTable (k : ℚ) (lists : List (List SearchResult))
    (acc : List (String × ℚ × SearchResult)) (c : String) :
    tblRes (buildTable k lists acc) c =
      match tblRes acc c with
      | some r => some r
      | none => findFirst lists c := by
  induction lists generalizing acc with
  | nil =>
    simp only [buildTable, findFirst]
    cases tblRes acc c <;> rfl
  | cons l ls ih =>
    simp only [buildTable, findFirst]
    rw [ih, tblRes_scoreList]
    cases hr : tblRes acc c
    · cases hf : l.find? (fun r => decide (r.chunk_id = c)) <;> simp
    · rfl

/-- Invariant of the score table: every entry's key is the chunk id of the
`SearchResult` it stores. -/
def KeysMatch (t : List (String × ℚ × SearchResult)) : Prop :=
  ∀ e ∈ t, e.1 = e.2.2.chunk_id

theorem keysMatch_addEntry (acc : List (String × ℚ × SearchResult))
    (r : SearchResult) (s : ℚ) (h : KeysMatch acc) :
    KeysMatch (addEntry acc r.chunk_id s r) := by
  induction acc with
  | nil =>
    intro e he
    simp only [addEntry, List.mem_singleton] at he
    simp [he]
  | cons e0 rest ih =>
    by_cases he : e0.1 = r.chunk_id
    · intro e hm
      simp only [addEntry, if_pos he] at hm
      rcases List.mem_cons.mp hm with hm | hm
      · have := h e0 (List.mem_cons_self e0 rest)
        subst hm
        simpa using this
      · exact h e (List.mem_cons_of_mem _ hm)
    · intro e hm
      simp only [addEntry, if_neg he] at hm
      rcases List.mem_cons.mp hm with hm | hm
      · exact hm ▸ h e0 (List.mem_cons_self e0 rest)
      · exact ih (fun x hx => h x (List.mem_cons_of_mem _ hx)) e hm

theorem keysMatch_scoreList (k : ℚ) (i : Nat) (l : List SearchResult)
    (acc : List (String × ℚ × SearchResult)) (h : KeysMatch acc) :
    KeysMatch (scoreList k i l acc) := by
  induction l generalizing i acc with
  | nil => simpa [scoreList] using h
  | cons r rs ih =>
    simp only [scoreList]
    exact ih _ _ (keysMatch_addEntry _ _ _ h)

theorem keysMatch_buildTable (k : ℚ) (lists : List (List SearchResult))
    (acc : List (String × ℚ × SearchResult)) (h : KeysMatch acc) :
    KeysMatch (buildTable k lists acc) := by
  induction lists generalizing acc with
  | nil => simpa [buildTable] using h
  | cons l ls ih =>
    simp only [buildTable]
    exact ih _ (keysMatch_scoreList _ _ _ _ h)

theorem mem_tblKeys_of_mem {t : List (String × ℚ × SearchResult)}
    {e : String × ℚ × SearchResult} (h : e ∈ t) : e.1 ∈ tblKeys t :=
  List.mem_map.mpr ⟨e, h, rfl⟩

theorem tblScore_eq_of_mem {t : List (String × ℚ × SearchResult)}
    {e : String × ℚ × SearchResult} (hn : (tblKeys t).Nodup) (h : e ∈ t) :
    tblScore t e.1 = e.2.1 := by
  induction t with
  | nil => cases h
  | cons e0 rest ih =>
    simp only [tblKeys, List.map_cons, List.nodup_cons] at hn
    rcases List.mem_cons.mp h with h | h
    · simp [tblScore, h]
    · have hne : ¬ e0.1 = e.1 := fun hh => hn.1 (hh ▸ mem_tblKeys_of_mem h)
      simp only [tblScore, if_neg hne]
      exact ih hn.2 h

theorem tblRes_eq_of_mem {t : List (String × ℚ × SearchResult)}
    {e : String × ℚ × SearchResult} (hn : (tblKeys t).Nodup) (h : e ∈ t) :
    tblRes t e.1 = some e.2.2 := by
  induction t with
  | nil => cases h
  | cons e0 rest ih =>
    simp only [tblKeys, List.map_cons, List.nodup_cons] at hn
    rcases List.mem_cons.mp h with h | h
    · simp [tblRes, h]
    · have hne : ¬ e0.1 = e.1 := fun hh => hn.1 (hh ▸ mem_tblKeys_of_mem h)
      simp only [tblRes, if_neg hne]
      exact ih hn.2 h

/-! ## Relating `contrib` to the spec's RRF formula -/

theorem contrib_eq_zero_of_not_mem (k : ℚ) (i : Nat) (l : List SearchResult)
    (c : String) (h : c ∉ l.map SearchResult.chunk_id) :
    contrib k i l c = 0 := by
  induction l generalizing i with
  | nil => simp [contrib]
  | cons r rs ih =>
    simp only [List.map_cons, List.mem_cons] at h
    push_neg at h
    simp only [contrib]
    rw [ih _ h.2]
    simp [Ne.symm h.1]

theorem contrib_of_nodup (k : ℚ) (i : Nat) (l : List SearchResult)
    (c : String) (hn : (l.map SearchResult.chunk_id).Nodup) :
    contrib k i l c =
      if c ∈ l.map SearchResult.chunk_id then
        1 / (k + i + (l.map SearchResult.chunk_id).indexOf c)
      else 0 := by
  induction l generalizing i with
  | nil => simp [contrib]
  | cons r rs ih =>
    simp only [List.map_cons, List.nodup_cons] at hn
    simp only [contrib, List.map_cons]
    by_cases h : r.chunk_id = c
    · have hc : c ∉ rs.map SearchResult.chunk_id := h ▸ hn.1
      rw [contrib_eq_zero_of_not_mem _ _ _ _ hc]
      rw [if_pos (List.mem_cons.mpr (Or.inl h.symm))]
      rw [h, List.indexOf_cons_self]
      simp
    · have hne : ¬ c = r.chunk_id := fun hh => h hh.symm
      rw [ih _ hn.2]
      rw [List.indexOf_cons_ne _ h]
      by_cases hm : c ∈ rs.map SearchResult.chunk_id
      · rw [if_pos hm, if_pos (List.mem_cons.mpr (Or.inr hm))]
        rw [if_neg h, zero_add]
        congr 1
        push_cast
        ring
      · have hnm : c ∉ SearchResult.chunk_id r :: rs.map SearchResult.chunk_id := by
          intro hmem
          rcases List.mem_cons.mp hmem with hh | hh
          · exact hne hh
          · exact hm hh
        rw [if_neg hm, if_neg hnm, if_neg h, zero_add]

theorem listsContrib_eq_specFusedScore (k : ℚ)
    (lists : List (List SearchResult)) (c : String)
    (h : ∀ l ∈ lists, (l.map SearchResult.chunk_id).Nodup) :
    listsContrib k lists c = specFusedScore k lists c := by
  induction lists with
  | nil => simp [listsContrib, specFusedScore]
  | cons l ls ih =>
    simp only [listsContrib, specFusedScore, List.map_cons, List.sum_cons]
    rw [contrib_of_nodup _ _ _ _ (h l (List.mem_cons_self l ls))]
    rw [ih (fun l' hl' => h l' (List.mem_cons_of_mem _ hl'))]
    simp only [specFusedScore]
    congr 1
    by_cases hm : c ∈ l.map SearchResult.chunk_id <;> simp [hm]

/-! ## Characterising the output of `reciprocal_rank_fusion` -/

theorem mem_rrf (lists : List (List SearchResult)) (k : Nat)
    (res : SearchResult) :
    res ∈ reciprocal_rank_fusion lists k ↔
      ∃ e ∈ buildTable (k : ℚ) lists [],
        res = { e.2.2 with similarity := e.2.1 } := by
  unfold reciprocal_rank_fusion
  simp only [List.mem_map, List.mem_insertionSort (fun x y : String × ℚ × SearchResult => y.2.1 ≤ x.2.1)]
  constructor
  · rintro ⟨e, he, rfl⟩
    exact ⟨e, he, rfl⟩
  · rintro ⟨e, he, rfl⟩
    exact ⟨e, he, rfl⟩

theorem findFirst_eq_find?_flatten (lists : List (List SearchResult))
    (c : String) :
    findFirst lists c =
      lists.flatten.find? (fun r => decide (r.chunk_id = c)) := by
  induction lists with
  | nil => simp [findFirst]
  | cons l ls ih =>
    simp only [findFirst, List.flatten_cons, List.find?_append, ih]
    cases hf : l.find? (fun r => decide (r.chunk_id = c)) <;> simp [hf]

theorem nodup_tblKeys_rrf_table (lists : List (List SearchResult)) (k : ℚ) :
    (tblKeys (buildTable k lists [])).Nodup :=
  nodup_tblKeys_buildTable _ _ _ (by simp [tblKeys])

theorem keysMatch_rrf_table (lists : List (List SearchResult)) (k : ℚ) :
    KeysMatch (buildTable k lists []) :=
  keysMatch_buildTable _ _ _ (fun _ h => absurd h (List.not_mem_nil _))

theorem rrf_similarity_eq (lists : List (List SearchResult)) (k : Nat)
    (res : SearchResult) (h : res ∈ reciprocal_rank_fusion lists k) :
    res.similarity = listsContrib (k : ℚ) lists res.chunk_id := by
  rcases (mem_rrf lists k res).mp h with ⟨e, he, rfl⟩
  have hkm : e.1 = e.2.2.chunk_id := keysMatch_rrf_table lists (k : ℚ) e he
  have hsc : tblScore (buildTable (k : ℚ) lists []) e.1 = e.2.1 :=
    tblScore_eq_of_mem (nodup_tblKeys_rrf_table lists (k : ℚ)) he
  have hbt := tblScore_buildTable (k : ℚ) lists [] e.1
  simp only [tblScore] at hbt
  rw [hsc, zero_add] at hbt
  show e.2.1 = listsContrib (k : ℚ) lists e.2.2.chunk_id
  rw [← hkm, hbt]

/-- claim C1 — With the default constant `k_rrf = 60` and input lists whose
chunk ids are duplicate-free within each list, `reciprocal_rank_fusion`
(1) gives every output result the fused similarity
`Σ_{lists containing the chunk} 1 / (60 + rank)` (rank = zero-based position
in that list), overwriting the channel-specific similarity, (2) returns the
results sorted by descending fused score, and (3) outputs exactly the chunk
ids occurring in at least one input list. -/
theorem rrf_default_fused_score_sorted (lists : List (List SearchResult))
    (h : ∀ l ∈ lists, (l.map SearchResult.chunk_id).Nodup) :
    (∀ res ∈ reciprocal_rank_fusion lists 60,
        res.similarity = specFusedScore 60 lists res.chunk_id)
    ∧ (reciprocal_rank_fusion lists 60).Pairwise
        (fun a b => b.similarity ≤ a.similarity)
    ∧ (∀ c, (∃ res ∈ reciprocal_rank_fusion lists 60, res.chunk_id = c) ↔
        ∃ l ∈ lists, c ∈ l.map SearchResult.chunk_id) := by
  refine ⟨?_, ?_, ?_⟩
  · intro res hres
    rw [rrf_similarity_eq lists 60 res hres]
    exact listsContrib_eq_specFusedScore _ _ _ h
  · unfold reciprocal_rank_fusion
    haveI htot : IsTotal (String × ℚ × SearchResult)
        (fun x y => y.2.1 ≤ x.2.1) := ⟨fun a b => le_total b.2.1 a.2.1⟩
    haveI htrans : IsTrans (String × ℚ × SearchResult)
        (fun x y => y.2.1 ≤ x.2.1) := ⟨fun a b c hab hbc => le_trans hbc hab⟩
    have hs := List.sorted_insertionSort
      (fun x y : String × ℚ × SearchResult => y.2.1 ≤ x.2.1)
      (buildTable ((60 : Nat) : ℚ) lists [])
    exact List.Pairwise.map _ (fun a b hab => hab) hs
  · intro c
    constructor
    · rintro ⟨res, hres, rfl⟩
      rcases (mem_rrf lists 60 res).mp hres with ⟨e, he, rfl⟩
      have hkm : e.1 = e.2.2.chunk_id := keysMatch_rrf_table lists _ e he
      have : e.1 ∈ tblKeys (buildTable ((60 : Nat) : ℚ) lists []) :=
        mem_tblKeys_of_mem he
      rw [mem_tblKeys_buildTable] at this
      rcases this with hmem | hmem
      · simp [tblKeys] at hmem
      · show ∃ l ∈ lists, (⟨e.2.2.chunk_id, e.2.2.document_id, e.2.2.content,
          e.2.1, e.2.2.metadata, e.2.2.document_title,
          e.2.2.document_source⟩ : SearchResult).chunk_id ∈
            l.map SearchResult.chunk_id
        simpa [← hkm] using hmem
    · intro hmem
      have : c ∈ tblKeys (buildTable ((60 : Nat) : ℚ) lists []) := by
        rw [mem_tblKeys_buildTable]
        exact Or.inr hmem
      rcases List.mem_map.mp this with ⟨e, he, rfl⟩
      refine ⟨{ e.2.2 with similarity := e.2.1 }, (mem_rrf lists 60 _).mpr ⟨e, he, rfl⟩, ?_⟩
      exact (keysMatch_rrf_table lists _ e he).symm

section ConcreteEval

/- The Batteries rational-number operations are `@[irreducible]`, which
blocks `decide` on concrete rational arithmetic; restore reducibility
locally so concrete instances evaluate. -/
attribute [local semireducible] Rat.add Rat.mul Rat.inv Rat.sub

/-- A concrete `SearchResult` used by the concrete-input witnesses. -/
def demoRes (cid : String) (sim : ℚ) : SearchResult :=
  { chunk_id := cid, document_id := "doc1", content := "text " ++ cid,
    similarity := sim, metadata := [("k", "v")], document_title := "Title",
    document_source := "file.md" }

/-- The semantic ranking of the spec's §8 scenario: `[C1, C2, C3]`. -/
def demoSem : List SearchResult :=
  [demoRes "C1" (9/10), demoRes "C2" (8/10), demoRes "C3" (7/10)]

/-- The lexical ranking of the spec's §8 scenario: `[C2, C3, C1]`. -/
def demoLex : List SearchResult :=
  [demoRes "C2" 5, demoRes "C3" 4, demoRes "C1" 3]

/-- The spec's §8 scenario: semantic ranks `[C1, C2, C3]`,
lexical ranks `[C2, C3, C1]`. -/
def demoLists : List (List SearchResult) :=
  [demoSem, demoLex]

/-- Witness for C1 on the spec's own scenario (§8). -/
theorem rrf_default_fused_score_sorted_witness :
    (∀ l ∈ demoLists, (l.map SearchResult.chunk_id).Nodup)
    ∧ ((∀ res ∈ reciprocal_rank_fusion demoLists 60,
          res.similarity = specFusedScore 60 demoLists res.chunk_id)
      ∧ (reciprocal_rank_fusion demoLists 60).Pairwise
          (fun a b => b.similarity ≤ a.similarity)
      ∧ (∀ c, (∃ res ∈ reciprocal_rank_fusion demoLists 60,
            res.chunk_id = c) ↔
          ∃ l ∈ demoLists, c ∈ l.map SearchResult.chunk_id)) :=
  ⟨by decide, rrf_default_fused_score_sorted demoLists (by decide)⟩

theorem rrf_chunkIds_eq (lists : List (List SearchResult)) (k : Nat) :
    (reciprocal_rank_fusion lists k).map SearchResult.chunk_id =
      ((buildTable (k : ℚ) lists []).insertionSort
        (fun x y => y.2.1 ≤ x.2.1)).map (fun e => e.1) := by
  unfold reciprocal_rank_fusion
  rw [List.map_map]
  apply List.map_congr_left
  intro e he
  exact (keysMatch_rrf_table lists _ e ((List.mem_insertionSort _).mp he)).symm

/-- claim C7 — The output of `reciprocal_rank_fusion` carries exactly the
distinct chunk ids of the union of the input lists: its chunk-id column is
duplicate-free, and a chunk id occurs in it iff it occurs in some input
list. -/
theorem rrf_union_exactly_once (lists : List (List SearchResult)) (k : Nat) :
    ((reciprocal_rank_fusion lists k).map SearchResult.chunk_id).Nodup
    ∧ ∀ c, c ∈ (reciprocal_rank_fusion lists k).map SearchResult.chunk_id ↔
        ∃ l ∈ lists, c ∈ l.map SearchResult.chunk_id := by
  have hperm : List.Perm
      (((buildTable (k : ℚ) lists []).insertionSort
        (fun x y => y.2.1 ≤ x.2.1)).map (fun e => e.1))
      (tblKeys (buildTable (k : ℚ) lists [])) :=
    (List.perm_insertionSort _ _).map _
  constructor
  · rw [rrf_chunkIds_eq]
    exact hperm.nodup_iff.mpr (nodup_tblKeys_rrf_table lists (k : ℚ))
  · intro c
    rw [rrf_chunkIds_eq, hperm.mem_iff, mem_tblKeys_buildTable]
    simp [tblKeys]

theorem rrf_first_occ_aux (lists : List (List SearchResult)) (k : Nat)
    (res : SearchResult) (h : res ∈ reciprocal_rank_fusion lists k) :
    ∃ fst, lists.flatten.find?
        (fun r => decide (r.chunk_id = res.chunk_id)) = some fst ∧
      res = { fst with similarity := res.similarity } := by
  rcases (mem_rrf lists k res).mp h with ⟨e, he, rfl⟩
  have hkm : e.1 = e.2.2.chunk_id := keysMatch_rrf_table lists _ e he
  have hres : tblRes (buildTable (k : ℚ) lists []) e.1 = some e.2.2 :=
    tblRes_eq_of_mem (nodup_tblKeys_rrf_table lists (k : ℚ)) he
  have hff := tblRes_buildTable (k : ℚ) lists [] e.1
  simp only [tblRes] at hff
  rw [hres] at hff
  refine ⟨e.2.2, ?_, rfl⟩
  rw [← findFirst_eq_find?_flatten]
  show findFirst lists ({ e.2.2 with similarity := e.2.1 } : SearchResult).chunk_id = some e.2.2
  have : ({ e.2.2 with similarity := e.2.1 } : SearchResult).chunk_id = e.1 := hkm.symm
  rw [this, ← hff]

/-- claim C9 — Every output result of `reciprocal_rank_fusion` takes every
field except `similarity` from the chunk's first occurrence in iteration
order (earliest list, then earliest rank within it); and for a two-list
input whose first list contains the chunk (as `hybrid_search` passes the
semantic list first), those fields come from the first list. -/
theorem rrf_first_occurrence_fields :
    (∀ (lists : List (List SearchResult)) (k : Nat) (res : SearchResult),
      res ∈ reciprocal_rank_fusion lists k →
      ∃ fst, lists.flatten.find?
          (fun r => decide (r.chunk_id = res.chunk_id)) = some fst ∧
        res = { fst with similarity := res.similarity })
    ∧ (∀ (l1 l2 : List SearchResult) (k : Nat) (res : SearchResult),
      res ∈ reciprocal_rank_fusion [l1, l2] k →
      res.chunk_id ∈ l1.map SearchResult.chunk_id →
      ∃ fst ∈ l1, fst.chunk_id = res.chunk_id ∧
        res = { fst with similarity := res.similarity }) := by
  refine ⟨rrf_first_occ_aux, ?_⟩
  intro l1 l2 k res h hm
  rcases rrf_first_occ_aux [l1, l2] k res h with ⟨fst, hf, heq⟩
  have hsome : (l1.find? (fun r => decide (r.chunk_id = res.chunk_id))).isSome := by
    rw [List.find?_isSome]
    rcases List.mem_map.mp hm with ⟨x, hx, hxc⟩
    exact ⟨x, hx, by simp [hxc]⟩
  rcases Option.isSome_iff_exists.mp hsome with ⟨v, hv⟩
  have hfl : ([l1, l2] : List (List SearchResult)).flatten = l1 ++ (l2 ++ []) := rfl
  rw [hfl, List.find?_append, hv] at hf
  simp only [Option.or_some] at hf
  have hveq : v = fst := by
    injection hf
  subst hveq
  refine ⟨v, List.mem_of_find?_eq_some hv, ?_, heq⟩
  have := List.find?_some hv
  simpa using this

/-- Witness for C9: in the §8 scenario, chunk `C2` appears in both channels;
its fused result carries the semantic channel's fields (`similarity 8/10`
replaced by the fused score `1/60 + 1/61 = 121/3660`). -/
theorem rrf_first_occurrence_fields_witness :
    (demoRes "C2" (121/3660) ∈ reciprocal_rank_fusion [demoSem, demoLex] 60
      ∧ (demoRes "C2" (121/3660)).chunk_id ∈ demoSem.map SearchResult.chunk_id)
    ∧ ∃ fst ∈ demoSem,
        fst.chunk_id = (demoRes "C2" (121/3660)).chunk_id ∧
        demoRes "C2" (121/3660) =
          { fst with similarity := (demoRes "C2" (121/3660)).similarity } :=
  ⟨⟨by decide, by decide⟩,
    rrf_first_occurrence_fields.2 demoSem demoLex 60 (demoRes "C2" (121/3660))
      (by decide) (by decide)⟩

/-- Helper: every fused result's chunk id comes from some input list. -/
theorem rrf_chunkId_from_inputs (lists : List (List SearchResult)) (k : Nat)
    (res : SearchResult) (h : res ∈ reciprocal_rank_fusion lists k) :
    ∃ l ∈ lists, res.chunk_id ∈ l.map SearchResult.chunk_id := by
  rcases (mem_rrf lists k res).mp h with ⟨e, he, rfl⟩
  have hkm : e.1 = e.2.2.chunk_id := keysMatch_rrf_table lists _ e he
  have hmem : e.1 ∈ tblKeys (buildTable (k : ℚ) lists []) :=
    mem_tblKeys_of_mem he
  rw [mem_tblKeys_buildTable] at hmem
  rcases hmem with hmem | hmem
  · simp [tblKeys] at hmem
  · show ∃ l ∈ lists, ({ e.2.2 with similarity := e.2.1 } : SearchResult).chunk_id ∈
      l.map SearchResult.chunk_id
    have : ({ e.2.2 with similarity := e.2.1 } : SearchResult).chunk_id = e.1 :=
      hkm.symm
    rw [this]
    exact hmem

/-! ## Length bounds and degradation of the search tools -/

theorem mapRows_ok_length {jp : String → Except Err (List (String × String))}
    {rows : List Row} {rs : List SearchResult}
    (h : mapRows jp rows = Except.ok rs) : rs.length = rows.length := by
  induction rows generalizing rs with
  | nil =>
    simp only [mapRows] at h
    cases h
    rfl
  | cons r rest ih =>
    simp only [mapRows] at h
    cases hr : rowToResult jp r with
    | error e => rw [hr] at h; cases h
    | ok s =>
      rw [hr] at h
      cases hm : mapRows jp rest with
      | error e => rw [hm] at h; cases h
      | ok ss =>
        rw [hm] at h
        cases h
        simp [ih hm]

theorem mapRows_ok_mem {jp : String → Except Err (List (String × String))}
    {rows : List Row} {rs : List SearchResult}
    (h : mapRows jp rows = Except.ok rs) :
    ∀ res ∈ rs, ∃ row ∈ rows, rowToResult jp row = Except.ok res := by
  induction rows generalizing rs with
  | nil =>
    simp only [mapRows] at h
    cases h
    intro res hres
    cases hres
  | cons r rest ih =>
    simp only [mapRows] at h
    cases hr : rowToResult jp r with
    | error e => rw [hr] at h; cases h
    | ok s =>
      rw [hr] at h
      cases hm : mapRows jp rest with
      | error e => rw [hm] at h; cases h
      | ok ss =>
        rw [hm] at h
        cases h
        intro res hres
        rcases List.mem_cons.mp hres with hres | hres
        · exact ⟨r, List.mem_cons_self r rest, hres ▸ hr⟩
        · rcases ih hm res hres with ⟨row, hrow, hok⟩
          exact ⟨row, List.mem_cons_of_mem _ hrow, hok⟩

theorem semantic_search_length_le (env : Env) (q : String)
    (mc : Option Nat) :
    (semantic_search env q mc).length ≤ env.settings.max_match_count := by
  unfold semantic_search semanticBody
  cases env.embedOutcome q with
  | error e => simp
  | ok emb =>
    cases env.semanticFetchFault with
    | some e => simp
    | none =>
      simp only
      cases hm : mapRows env.jsonParse
          ((env.semanticRows emb).take (clampCount env mc)) with
      | error e => simp
      | ok rs =>
        simp only
        calc rs.length = ((env.semanticRows emb).take (clampCount env mc)).length :=
              mapRows_ok_length hm
          _ ≤ clampCount env mc := by simp [List.length_take]
          _ ≤ env.settings.max_match_count := min_le_right _ _

theorem text_search_length_le (env : Env) (q : String) (mc : Option Nat) :
    (text_search env q mc).length ≤ 2 * env.settings.max_match_count := by
  unfold text_search textBody
  cases env.textFetchFault with
  | some e => simp
  | none =>
    simp only
    cases hm : mapRows env.jsonParse
        ((env.textRows q).take (clampCount env mc * 2)) with
    | error e => simp
    | ok rs =>
      simp only
      calc rs.length = ((env.textRows q).take (clampCount env mc * 2)).length :=
            mapRows_ok_length hm
        _ ≤ clampCount env mc * 2 := by simp [List.length_take]
        _ ≤ env.settings.max_match_count * 2 :=
            Nat.mul_le_mul_right _ (min_le_right _ _)
        _ = 2 * env.settings.max_match_count := Nat.mul_comm _ _

theorem hybrid_search_length_le (env : Env) (q : String) (mc : Option Nat) :
    (hybrid_search env q mc).length ≤ env.settings.max_match_count := by
  unfold hybrid_search hybridBody
  by_cases hb : semantic_search env q (some (clampCount env mc * 2)) = []
      ∧ text_search env q (some (clampCount env mc * 2)) = []
  · rw [if_pos hb]
    simp
  · rw [if_neg hb]
    cases env.fusionFault with
    | some e => exact semantic_search_length_le env q _
    | none =>
      simp only
      calc ((reciprocal_rank_fusion
          [semantic_search env q (some (clampCount env mc * 2)),
           text_search env q (some (clampCount env mc * 2))] 60).take
            (clampCount env mc)).length ≤ clampCount env mc := by
            simp [List.length_take]
        _ ≤ env.settings.max_match_count := min_le_right _ _

/-- A fetched row with trivially well-formed metadata, used by the
concrete environments. -/
def demoRow (cid : String) : Row :=
  { chunk_id := cid, document_id := "doc1", content := "some text",
    similarity := 1/2, chunk_metadata := MetaVal.null,
    document_source := "file.md", document_title := some "Title" }

/-- A healthy environment whose store holds two lexical candidate rows and
whose configured maximum is 1, exhibiting `text_search` returning more rows
than `max_match_count`. -/
def cexEnv : Env :=
  { settings := { default_match_count := 10, max_match_count := 1 }
    embedOutcome := fun _ => Except.ok [1, 0]
    jsonParse := fun _ => Except.ok []
    semanticRows := fun _ => [demoRow "a"]
    textRows := fun _ => [demoRow "a", demoRow "b"]
    semanticFetchFault := none
    textFetchFault := none
    fusionFault := none }

/-- counterexample to C3 — with `max_match_count = 1` and two rows matching
the query, `text_search` called with `k = 5` returns 2 results, exceeding
the configured maximum: the doubled SQL limit (`match_count * 2`) is not
truncated before returning. -/
theorem text_search_can_exceed_max :
    ¬ ((text_search cexEnv "q" (some 5)).length ≤
        cexEnv.settings.max_match_count) := by decide

/-- claim C3 (amended) — Result limits are clamped, not rejected: for every
environment, query and requested `k`, `semantic_search` and `hybrid_search`
return at most `max_match_count` results; `text_search` returns at most
`2 * max_match_count` results (it fetches and returns double the clamped
count to feed fusion). -/
theorem search_results_clamped (env : Env) (q : String) (mc : Option Nat) :
    (semantic_search env q mc).length ≤ env.settings.max_match_count
    ∧ (text_search env q mc).length ≤ 2 * env.settings.max_match_count
    ∧ (hybrid_search env q mc).length ≤ env.settings.max_match_count :=
  ⟨semantic_search_length_le env q mc, text_search_length_le env q mc,
    hybrid_search_length_le env q mc⟩

/-! ## Degradation behaviour (claims C4, C5, C6) -/

/-- claim C6 — The two channels degrade to an empty list instead of
propagating: whenever the `try`-block body fails (embedding provider error,
store fetch error, or a failure while mapping a fetched row), the channel
function returns `[]`; it never surfaces the error (the functions are total
into `List SearchResult`). -/
theorem channels_degrade_to_empty (env : Env) (q : String) (mc : Option Nat) :
    (∀ e, semanticBody env q mc = Except.error e →
      semantic_search env q mc = [])
    ∧ (∀ e, textBody env q mc = Except.error e → text_search env q mc = [])
    ∧ (∀ e, env.embedOutcome q = Except.error e →
      semantic_search env q mc = [])
    ∧ (∀ e, env.semanticFetchFault = some e → semantic_search env q mc = [])
    ∧ (∀ e, env.textFetchFault = some e → text_search env q mc = [])
    ∧ (∀ emb e, env.embedOutcome q = Except.ok emb →
      env.semanticFetchFault = none →
      mapRows env.jsonParse
        ((env.semanticRows emb).take (clampCount env mc)) = Except.error e →
      semantic_search env q mc = [])
    ∧ (∀ e, env.textFetchFault = none →
      mapRows env.jsonParse
        ((env.textRows q).take (clampCount env mc * 2)) = Except.error e →
      text_search env q mc = []) := by
  refine ⟨?_, ?_, ?_, ?_, ?_, ?_, ?_⟩
  · intro e he
    unfold semantic_search
    rw [he]
  · intro e he
    unfold text_search
    rw [he]
  · intro e he
    unfold semantic_search semanticBody
    rw [he]
  · intro e he
    unfold semantic_search semanticBody
    cases hq : env.embedOutcome q with
    | error e2 => rfl
    | ok emb => rw [he]
  · intro e he
    unfold text_search textBody
    rw [he]
  · intro emb e hq hf hm
    unfold semantic_search semanticBody
    rw [hq, hf]
    simp only
    rw [hm]
  · intro e hf hm
    unfold text_search textBody
    rw [hf]
    simp only
    rw [hm]

/-- An environment whose embedding provider is down. -/
def embedDownEnv : Env :=
  { cexEnv with embedOutcome := fun _ => Except.error ⟨"provider down"⟩ }

/-- Witness for C6: with the embedding provider down, `semantic_search`
returns `[]`; with the lexical fetch faulted, `text_search` returns `[]`. -/
theorem channels_degrade_to_empty_witness :
    (embedDownEnv.embedOutcome "q" = Except.error ⟨"provider down"⟩
      ∧ semantic_search embedDownEnv "q" none = [])
    ∧ ({ cexEnv with textFetchFault := some ⟨"db down"⟩ : Env}.textFetchFault
        = some ⟨"db down"⟩
      ∧ text_search { cexEnv with textFetchFault := some ⟨"db down"⟩ } "q"
          none = []) :=
  ⟨⟨rfl, (channels_degrade_to_empty embedDownEnv "q" none).2.2.1
      ⟨"provider down"⟩ rfl⟩,
   ⟨rfl, (channels_degrade_to_empty
      { cexEnv with textFetchFault := some ⟨"db down"⟩ } "q" none).2.2.2.2.1
      ⟨"db down"⟩ rfl⟩⟩

/-- claim C4 — `hybrid_search` is total into `List SearchResult` (its whole
body is guarded, so no exception reaches the caller); when the fusion step
raises (and the channels were not both empty, so fusion was actually
reached), it falls back to `semantic_search` for the same query with the
clamped count, and if that fallback's own body also fails the final value
is the empty list. -/
theorem hybrid_never_raises_fusion_fallback (env : Env) (q : String)
    (mc : Option Nat) (e : Err) (hf : env.fusionFault = some e)
    (hne : ¬ (semantic_search env q (some (clampCount env mc * 2)) = []
      ∧ text_search env q (some (clampCount env mc * 2)) = [])) :
    hybrid_search env q mc = semantic_search env q (some (clampCount env mc))
    ∧ (∀ e2, semanticBody env q (some (clampCount env mc)) =
        Except.error e2 → hybrid_search env q mc = []) := by
  have hb : hybridBody env q mc = Except.error e := by
    unfold hybridBody
    rw [if_neg hne, hf]
  constructor
  · unfold hybrid_search
    rw [hb]
  · intro e2 he2
    unfold hybrid_search
    rw [hb]
    unfold semantic_search
    rw [he2]

/-- An environment with a healthy store but a fusion step that raises. -/
def fusionFaultEnv : Env :=
  { cexEnv with fusionFault := some ⟨"fusion exploded"⟩ }

/-- Witness for C4: with the fusion step raising and a non-empty lexical
channel, `hybrid_search` returns exactly the semantic-only results. -/
theorem hybrid_never_raises_fusion_fallback_witness :
    (fusionFaultEnv.fusionFault = some ⟨"fusion exploded"⟩
      ∧ ¬ (semantic_search fusionFaultEnv "q"
            (some (clampCount fusionFaultEnv (some 3) * 2)) = []
        ∧ text_search fusionFaultEnv "q"
            (some (clampCount fusionFaultEnv (some 3) * 2)) = []))
    ∧ (hybrid_search fusionFaultEnv "q" (some 3) =
        semantic_search fusionFaultEnv "q"
          (some (clampCount fusionFaultEnv (some 3)))
      ∧ (∀ e2, semanticBody fusionFaultEnv "q"
          (some (clampCount fusionFaultEnv (some 3))) = Except.error e2 →
          hybrid_search fusionFaultEnv "q" (some 3) = [])) :=
  ⟨⟨rfl, by decide⟩,
    hybrid_never_raises_fusion_fallback fusionFaultEnv "q" (some 3)
      ⟨"fusion exploded"⟩ rfl (by decide)⟩

/-- claim C5 — If the lexical channel fails (its fetch raises), and fusion
itself is healthy, `hybrid_search` still answers: the failed channel
contributes an empty list, the semantic list is fused with it, and every
returned result's chunk id comes from the semantic channel. -/
theorem hybrid_degrades_to_semantic (env : Env) (q : String)
    (mc : Option Nat) (e : Err) (ht : env.textFetchFault = some e)
    (hf : env.fusionFault = none) :
    hybrid_search env q mc =
      (reciprocal_rank_fusion
        [semantic_search env q (some (clampCount env mc * 2)), []]
        60).take (clampCount env mc)
    ∧ ∀ res ∈ hybrid_search env q mc,
        res.chunk_id ∈
          (semantic_search env q (some (clampCount env mc * 2))).map
            SearchResult.chunk_id := by
  have htxt : text_search env q (some (clampCount env mc * 2)) = [] := by
    unfold text_search textBody
    rw [ht]
  have hmain : hybrid_search env q mc =
      (reciprocal_rank_fusion
        [semantic_search env q (some (clampCount env mc * 2)), []]
        60).take (clampCount env mc) := by
    unfold hybrid_search hybridBody
    rw [htxt]
    by_cases hs : semantic_search env q (some (clampCount env mc * 2)) = []
    · rw [if_pos ⟨hs, rfl⟩, hs]
      show ([] : List SearchResult) =
        (reciprocal_rank_fusion [[], []] 60).take (clampCount env mc)
      rw [show reciprocal_rank_fusion [[], []] 60 = [] from rfl]
      rw [List.take_nil]
    · rw [if_neg (fun hc => hs hc.1), hf]
  refine ⟨hmain, ?_⟩
  intro res hres
  rw [hmain] at hres
  have hres2 : res ∈ reciprocal_rank_fusion
      [semantic_search env q (some (clampCount env mc * 2)), []] 60 :=
    List.mem_of_mem_take hres
  rcases rrf_chunkId_from_inputs _ 60 res hres2 with ⟨l, hl, hmem⟩
  rcases List.mem_cons.mp hl with hl | hl
  · rw [← hl]
    exact hmem
  · rcases List.mem_cons.mp hl with hl | hl
    · rw [hl] at hmem
      cases hmem
    · cases hl

/-- An environment whose lexical fetch raises but whose semantic channel is
healthy and non-empty. -/
def lexDownEnv : Env :=
  { cexEnv with textFetchFault := some ⟨"lexical down"⟩ }

/-- Witness for C5: with the lexical channel down, `hybrid_search` returns
the fused semantic-only list (here exactly chunk `a`), and does not raise. -/
theorem hybrid_degrades_to_semantic_witness :
    (lexDownEnv.textFetchFault = some ⟨"lexical down"⟩
      ∧ lexDownEnv.fusionFault = none)
    ∧ (hybrid_search lexDownEnv "q" (some 3) =
        (reciprocal_rank_fusion
          [semantic_search lexDownEnv "q"
            (some (clampCount lexDownEnv (some 3) * 2)), []]
          60).take (clampCount lexDownEnv (some 3))
      ∧ ∀ res ∈ hybrid_search lexDownEnv "q" (some 3),
          res.chunk_id ∈
            (semantic_search lexDownEnv "q"
              (some (clampCount lexDownEnv (some 3) * 2))).map
              SearchResult.chunk_id) :=
  ⟨⟨rfl, rfl⟩,
    hybrid_degrades_to_semantic lexDownEnv "q" (some 3)
      ⟨"lexical down"⟩ rfl rfl⟩

/-! ## Title fallback (claim C10) -/

theorem pyTitle_empty_imp (t : Option String) (s : String)
    (h : pyTitle t s = "") : s = "" := by
  cases t with
  | none => simpa [pyTitle] using h
  | some v =>
    by_cases hv : v = ""
    · simpa [pyTitle, hv] using h
    · have hval : pyTitle (some v) s = v := by simp [pyTitle, hv]
      rw [hval] at h
      exact absurd h hv

theorem rowToResult_fields {jp : String → Except Err (List (String × String))}
    {row : Row} {res : SearchResult}
    (h : rowToResult jp row = Except.ok res) :
    res.document_title = pyTitle row.document_title row.document_source
    ∧ res.document_source = row.document_source := by
  unfold rowToResult at h
  cases hm : parseMeta jp row.chunk_metadata with
  | error e => rw [hm] at h; cases h
  | ok md =>
    rw [hm] at h
    cases h
    exact ⟨rfl, rfl⟩

theorem channel_mem_rowToResult (env : Env) (q : String) (mc : Option Nat)
    (res : SearchResult)
    (h : res ∈ semantic_search env q mc ∨ res ∈ text_search env q mc) :
    ∃ row, rowToResult env.jsonParse row = Except.ok res := by
  rcases h with h | h
  · unfold semantic_search at h
    cases hb : semanticBody env q mc with
    | error e => rw [hb] at h; cases h
    | ok rs =>
      rw [hb] at h
      unfold semanticBody at hb
      cases hq : env.embedOutcome q with
      | error e => rw [hq] at hb; cases hb
      | ok emb =>
        rw [hq] at hb
        cases hf : env.semanticFetchFault with
        | some e => rw [hf] at hb; cases hb
        | none =>
          rw [hf] at hb
          simp only at hb
          rcases mapRows_ok_mem hb res h with ⟨row, _, hok⟩
          exact ⟨row, hok⟩
  · unfold text_search at h
    cases hb : textBody env q mc with
    | error e => rw [hb] at h; cases h
    | ok rs =>
      rw [hb] at h
      unfold textBody at hb
      cases hf : env.textFetchFault with
      | some e => rw [hf] at hb; cases hb
      | none =>
        rw [hf] at hb
        simp only at hb
        rcases mapRows_ok_mem hb res h with ⟨row, _, hok⟩
        exact ⟨row, hok⟩

/-- claim C10 — Row mapping falls back to the filename for the title: a
constructed result whose row has a NULL or empty `metadata->>'title'` gets
`document_title = document_source`; consequently a result returned by
either channel can only have an empty `document_title` if its
`document_source` (the filename) is empty too. -/
theorem document_title_falls_back_to_source :
    (∀ (jp : String → Except Err (List (String × String))) (row : Row)
        (res : SearchResult), rowToResult jp row = Except.ok res →
      ((row.document_title = none ∨ row.document_title = some "") →
        res.document_title = row.document_source)
      ∧ (row.document_source ≠ "" → res.document_title ≠ ""))
    ∧ (∀ (env : Env) (q : String) (mc : Option Nat) (res : SearchResult),
        res ∈ semantic_search env q mc ∨ res ∈ text_search env q mc →
        res.document_title = "" → res.document_source = "") := by
  constructor
  · intro jp row res h
    rcases rowToResult_fields h with ⟨ht, hs⟩
    constructor
    · intro hnull
      rw [ht]
      rcases hnull with hnull | hnull <;> rw [hnull] <;> simp [pyTitle]
    · intro hsrc hempty
      rw [ht] at hempty
      exact hsrc (pyTitle_empty_imp _ _ hempty)
  · intro env q mc res hmem hempty
    rcases channel_mem_rowToResult env q mc res hmem with ⟨row, hok⟩
    rcases rowToResult_fields hok with ⟨ht, hs⟩
    rw [hs]
    rw [ht] at hempty
    exact pyTitle_empty_imp _ _ hempty

/-- A row whose document metadata has no title. -/
def untitledRow : Row :=
  { chunk_id := "u1", document_id := "doc2", content := "body",
    similarity := 1/4, chunk_metadata := MetaVal.null,
    document_source := "notes.md", document_title := none }

/-- The result `untitledRow` maps to. -/
def untitledResult : SearchResult :=
  { chunk_id := "u1", document_id := "doc2", content := "body",
    similarity := 1/4, metadata := [], document_title := "notes.md",
    document_source := "notes.md" }

/-- Witness for C10: a row with `document_title = NULL` maps to a result
whose title is the filename `notes.md`. -/
theorem document_title_falls_back_to_source_witness :
    (rowToResult (fun _ => Except.ok []) untitledRow =
      Except.ok untitledResult)
    ∧ ((untitledRow.document_title = none
        ∨ untitledRow.document_title = some "") →
      untitledResult.document_title = untitledRow.document_source)
    ∧ (untitledRow.document_source ≠ "" →
      untitledResult.document_title ≠ "") :=
  ⟨rfl,
    (document_title_falls_back_to_source.1 (fun _ => Except.ok [])
      untitledRow untitledResult rfl).1,
    (document_title_falls_back_to_source.1 (fun _ => Except.ok [])
      untitledRow untitledResult rfl).2⟩

/-! ## Atomicity of ingestion (claim C2, modelled from the spec) -/

theorem embedAll_ok_length {embed : String → Except Err (List ℚ)}
    {ps : List String} {vs : List (List ℚ)}
    (h : embedAll embed ps = Except.ok vs) : vs.length = ps.length := by
  induction ps generalizing vs with
  | nil =>
    simp only [embedAll] at h
    cases h
    rfl
  | cons p rest ih =>
    simp only [embedAll] at h
    cases he : embed p with
    | error e => rw [he] at h; cases h
    | ok v =>
      rw [he] at h
      cases hr : embedAll embed rest with
      | error e => rw [hr] at h; cases h
      | ok ws =>
        rw [hr] at h
        cases h
        simp [ih hr]

theorem embedAll_error_of_mem {embed : String → Except Err (List ℚ)}
    {ps : List String} {p : String} {e : Err}
    (hp : p ∈ ps) (he : embed p = Except.error e) :
    ∃ e2, embedAll embed ps = Except.error e2 := by
  induction ps with
  | nil => cases hp
  | cons q rest ih =>
    simp only [embedAll]
    rcases List.mem_cons.mp hp with hp | hp
    · rw [← hp, he]
      exact ⟨e, rfl⟩
    · cases hq : embed q with
      | error e2 => exact ⟨e2, rfl⟩
      | ok v =>
        rcases ih hp with ⟨e2, hr⟩
        rw [hr]
        exact ⟨e2, rfl⟩

theorem chunkRowsFor_length (docId : Nat) (pieces : List String)
    (embs : List (List ℚ)) (h : embs.length = pieces.length) :
    (chunkRowsFor docId pieces embs).length = pieces.length := by
  unfold chunkRowsFor
  simp [List.length_zip, h]

theorem chunkRowsFor_docId (docId : Nat) (pieces : List String)
    (embs : List (List ℚ)) :
    ∀ c ∈ chunkRowsFor docId pieces embs, c.document_id = docId := by
  unfold chunkRowsFor
  intro c hc
  rcases List.mem_map.mp hc with ⟨p, _, rfl⟩
  rfl

/-- claim C2 — spec-modelled: `ingest` persists the document row and all of
its chunk rows as one atomic unit.  For a document id not yet present in the
store: on failure (in particular an embedding failure partway through a
multi-chunk document) the visible store is exactly the input store and holds
zero rows for that document; on success the store holds exactly one document
row and one chunk row per produced chunk; and any chunk whose embedding call
fails forces the failure outcome. -/
theorem ingest_atomic (chunker : String → List String)
    (embed : String → Except Err (List ℚ)) (store : Store) (nextId : Nat)
    (title source content : String)
    (hdoc : docCount store nextId = 0)
    (hchunk : chunkCount store nextId = 0) :
    (∀ e, (ingest chunker embed store nextId title source content).2 =
        Except.error e →
      (ingest chunker embed store nextId title source content).1 = store
      ∧ docCount
          (ingest chunker embed store nextId title source content).1
          nextId = 0
      ∧ chunkCount
          (ingest chunker embed store nextId title source content).1
          nextId = 0)
    ∧ (∀ docId, (ingest chunker embed store nextId title source content).2 =
        Except.ok docId →
      docCount
        (ingest chunker embed store nextId title source content).1
        nextId = 1
      ∧ chunkCount
          (ingest chunker embed store nextId title source content).1
          nextId = (chunker content).length)
    ∧ ((∃ p ∈ chunker content, ∃ e, embed p = Except.error e) →
      ∃ e, (ingest chunker embed store nextId title source content).2 =
        Except.error e) := by
  refine ⟨?_, ?_, ?_⟩
  · intro e he
    unfold ingest at he ⊢
    cases hemb : embedAll embed (chunker content) with
    | error e2 =>
      exact ⟨rfl, hdoc, hchunk⟩
    | ok embs =>
      rw [hemb] at he
      cases he
  · intro docId hok
    unfold ingest at hok ⊢
    cases hemb : embedAll embed (chunker content) with
    | error e2 =>
      rw [hemb] at hok
      cases hok
    | ok embs =>
      constructor
      · unfold docCount at hdoc ⊢
        simp only [List.filter_append, List.length_append, hdoc]
        simp
      · unfold chunkCount at hchunk ⊢
        simp only [List.filter_append, List.length_append, hchunk]
        rw [List.filter_length_eq_length.mpr]
        · simp [chunkRowsFor_length nextId (chunker content) embs
            (embedAll_ok_length hemb)]
        · intro c hc
          simp [chunkRowsFor_docId nextId (chunker content) embs c hc]
  · rintro ⟨p, hp, e, he⟩
    unfold ingest
    rcases embedAll_error_of_mem hp he with ⟨e2, hr⟩
    rw [hr]
    exact ⟨e2, rfl⟩

/-- An embedding provider that fails on the second chunk. -/
def flakyEmbed : String → Except Err (List ℚ) :=
  fun s => if s = "beta" then Except.error ⟨"embed failed"⟩ else Except.ok [1, 0]

/-- A chunker splitting the demo content into three pieces. -/
def demoChunker : String → List String :=
  fun _ => ["alpha", "beta", "gamma"]

/-- Witness for C2: embedding fails on the middle chunk of a 3-chunk
document, and afterwards the store holds zero rows for the document. -/
theorem ingest_atomic_witness :
    (docCount ⟨[], []⟩ 7 = 0 ∧ chunkCount ⟨[], []⟩ 7 = 0)
    ∧ ((∃ p ∈ demoChunker "abg", ∃ e, flakyEmbed p = Except.error e) →
      ∃ e, (ingest demoChunker flakyEmbed ⟨[], []⟩ 7 "T" "t.md" "abg").2 =
        Except.error e)
    ∧ (∀ e, (ingest demoChunker flakyEmbed ⟨[], []⟩ 7 "T" "t.md" "abg").2 =
        Except.error e →
      (ingest demoChunker flakyEmbed ⟨[], []⟩ 7 "T" "t.md" "abg").1 = ⟨[], []⟩
      ∧ docCount
          (ingest demoChunker flakyEmbed ⟨[], []⟩ 7 "T" "t.md" "abg").1 7 = 0
      ∧ chunkCount
          (ingest demoChunker flakyEmbed ⟨[], []⟩ 7 "T" "t.md" "abg").1 7
          = 0) :=
  ⟨⟨rfl, rfl⟩,
    (ingest_atomic demoChunker flakyEmbed ⟨[], []⟩ 7 "T" "t.md" "abg"
      rfl rfl).2.2,
    (ingest_atomic demoChunker flakyEmbed ⟨[], []⟩ 7 "T" "t.md" "abg"
      rfl rfl).1⟩

end ConcreteEval

end HybridRag
